import Mathlib

/-
Verification of the pytest-multihost core against its specification.

The development shallowly embeds the relevant Python code:
  * util.py       : shell_quote
  * config.py     : Config.filter, Domain.fits, Domain.filter, the
                    from_dict / to_dict loaders and exporters
  * host.py       : BaseHost.__init__ / from_dict / to_dict hostname logic,
                    BaseHost.run_command stdin serialization, _echo_quote
  * transport.py  : Command.wait exit-code policy

Byte strings are modelled as lists of characters (`Str`); Python dicts that
map roles to counts are association lists; in-place mutation is modelled by
explicit state passing, and every error path of the embedded functions is
represented by an explicit constructor of a result type.
-/

set_option maxHeartbeats 1000000

namespace PytestMultihost

/-- Byte strings / text strings of the Python code, modelled as lists of
characters so that structural induction is available. -/
abbrev Str := List Char

/-- Convenience conversion from Lean string literals to `Str`. -/
def str (s : String) : Str := s.data

/-- The apostrophe character (ASCII 39). -/
def quoteChar : Char := Char.ofNat 39

/-- The backslash character (ASCII 92). -/
def backslashChar : Char := Char.ofNat 92

/-- The double-quote character (ASCII 34). -/
def dquoteChar : Char := Char.ofNat 34

/-- The newline character (ASCII 10). -/
def newlineChar : Char := Char.ofNat 10

/-! ## util.shell_quote -/

/-- Embedding of the single replacement performed by `util.shell_quote`:
Python `string.replace("'", "'\\''")` replaces every apostrophe by the
four-character sequence: apostrophe, backslash, apostrophe, apostrophe. -/
def replaceQuote : Str → Str
  | [] => []
  | c :: cs =>
    if c = quoteChar then
      quoteChar :: backslashChar :: quoteChar :: quoteChar :: replaceQuote cs
    else c :: replaceQuote cs

/-- Embedding of `util.shell_quote`: wrap the replaced string in a pair of
apostrophes. -/
def shell_quote (s : Str) : Str :=
  quoteChar :: (replaceQuote s ++ [quoteChar])

/-! ## POSIX shell quote removal

To state the round-trip property of `shell_quote` we model how a POSIX
shell evaluates one quoted word: quote removal with single quotes,
double quotes and backslash escaping (word expansions are out of scope;
`shell_quote` output never contains an unquoted dollar or backquote
character, so quote removal is the semantics that applies to it). -/

/-- Lexer state of the quote-removal evaluator: outside quotes, inside
single quotes, inside double quotes. -/
inductive QState
  | out
  | insingle
  | indouble
deriving DecidableEq, Repr

/-- One-word POSIX quote removal.  Returns `none` for a word with an
unterminated quote or a trailing unquoted backslash. -/
def shEvalAux : QState → Str → Option Str
  | .out, [] => some []
  | .out, c :: cs =>
    if c = quoteChar then shEvalAux .insingle cs
    else if c = dquoteChar then shEvalAux .indouble cs
    else if c = backslashChar then
      match cs with
      | [] => none
      | d :: ds =>
        if d = newlineChar then shEvalAux .out ds
        else (shEvalAux .out ds).map (fun r => d :: r)
    else (shEvalAux .out cs).map (fun r => c :: r)
  | .insingle, [] => none
  | .insingle, c :: cs =>
    if c = quoteChar then shEvalAux .out cs
    else (shEvalAux .insingle cs).map (fun r => c :: r)
  | .indouble, [] => none
  | .indouble, c :: cs =>
    if c = dquoteChar then shEvalAux .out cs
    else if c = backslashChar then
      match cs with
      | [] => none
      | d :: ds =>
        if d = dquoteChar ∨ d = backslashChar then
          (shEvalAux .indouble ds).map (fun r => d :: r)
        else if d = newlineChar then shEvalAux .indouble ds
        else (shEvalAux .indouble ds).map (fun r => backslashChar :: d :: r)
    else (shEvalAux .indouble cs).map (fun r => c :: r)
  termination_by _ s => s.length

/-- Quote removal of a full word, starting outside quotes. -/
def shellUnquote (s : Str) : Option Str := shEvalAux .out s

theorem quoteChar_ne_dquoteChar : quoteChar ≠ dquoteChar := by decide

theorem quoteChar_ne_newlineChar : quoteChar ≠ newlineChar := by decide

theorem backslashChar_ne_quoteChar : backslashChar ≠ quoteChar := by decide

theorem backslashChar_ne_dquoteChar : backslashChar ≠ dquoteChar := by decide

/-- Unfolding lemma: an unquoted apostrophe enters the single-quote state. -/
theorem shEvalAux_out_quote (cs : Str) :
    shEvalAux .out (quoteChar :: cs) = shEvalAux .insingle cs := by
  rw [shEvalAux.eq_def]
  simp

/-- Evaluating, inside single quotes, the replaced body of a string followed
by a closing apostrophe, prepends the original string to whatever the rest
evaluates to. -/
theorem shEvalAux_insingle_replaceQuote (s : Str) :
    ∀ rest, shEvalAux .insingle (replaceQuote s ++ (quoteChar :: rest)) =
      (shEvalAux .out rest).map (fun r => s ++ r) := by
  induction s with
  | nil =>
    intro rest
    simp [replaceQuote, shEvalAux]
  | cons c cs ih =>
    intro rest
    by_cases hc : c = quoteChar
    · subst hc
      simp [replaceQuote, shEvalAux, shEvalAux_out_quote, ih,
        quoteChar_ne_dquoteChar, quoteChar_ne_newlineChar,
        backslashChar_ne_quoteChar, backslashChar_ne_dquoteChar,
        Option.map_map]
      rfl
    · simp [replaceQuote, shEvalAux, hc, ih, Option.map_map]
      rfl

/-- C6: shell_quote followed by POSIX shell quote removal is the identity on
arbitrary strings. -/
theorem shell_quote_roundtrip (s : Str) :
    shellUnquote (shell_quote s) = some s := by
  have h := shEvalAux_insingle_replaceQuote s []
  have hnil : shEvalAux .out [] = some [] := by rw [shEvalAux.eq_def]
  simp [shellUnquote, shell_quote, shEvalAux_out_quote, h, hnil]

/-! ## host.run_command: the bytes written to the remote shell

`BaseHost.run_command` writes a sequence of byte chunks to the started
shell's stdin.  Each `command.stdin.write(...)` call of the source is one
element of `runCommandWrites`; the full byte stream is their concatenation.
Text encoding is the identity in this model (`Str` is the byte string). -/

/-- Commands are given either as one shell-script string or as a
Popen-style argument list (`argv` of `run_command`). -/
abbrev Argv := Sum Str (List Str)

/-- The NUL character (ASCII 0). -/
def nulChar : Char := Char.ofNat 0

/-- The slash character. -/
def slashChar : Char := Char.ofNat 47

/-- Python `bytes.replace` for a single-character pattern: every occurrence
of `pat` is replaced by `rep`. -/
def replaceAll (pat : Char) (rep : Str) : Str → Str
  | [] => []
  | c :: cs =>
    if c = pat then rep ++ replaceAll pat rep cs
    else c :: replaceAll pat rep cs

/-- Embedding of `host._echo_quote`: escape a byte string for use with
bash and `echo -en` (backslashes doubled, NUL bytes written out as a
backslash-x-0-0 escape, apostrophes escaped, result wrapped in
apostrophes). -/
def echo_quote (s : Str) : Str :=
  let s1 := replaceAll backslashChar [backslashChar, backslashChar] s
  let s2 := replaceAll nulChar [backslashChar, 'x', '0', '0'] s1
  let s3 := replaceAll quoteChar [quoteChar, backslashChar, quoteChar, quoteChar] s2
  quoteChar :: (s3 ++ [quoteChar])

/-- Embedding of `os.path.join` for two components, as used for
`env_sh_path = os.path.join(test_dir, 'env.sh')`. -/
def ospathJoin (a b : Str) : Str :=
  if b.head? = some slashChar then b
  else if a = [] then b
  else if a.getLast? = some slashChar then a ++ b
  else a ++ slashChar :: b

/-- Embedding of `BaseHost.run_command`: the list of chunks written to the
remote shell's stdin, one list element per `command.stdin.write` call of
the source, in source order. -/
def runCommandWrites (test_dir command_prelude : Str) (argv : Argv)
    (set_env : Bool) (stdin_text : Option Str) (cwd : Option Str) : List Str :=
  [str "cd " ++ shell_quote (cwd.getD test_dir) ++ [newlineChar]]
  ++ (if set_env then
        [str ". " ++ shell_quote (ospathJoin test_dir (str "env.sh")) ++ [newlineChar]]
      else [])
  ++ (if command_prelude ≠ [] then [command_prelude] else [])
  ++ (match stdin_text with
      | some s => if s ≠ [] then [str "echo -en ", echo_quote s, str " | "] else []
      | none => [])
  ++ (match argv with
      | .inl s => [str "(", s, str ")"]
      | .inr args => args.flatMap (fun a => [shell_quote a, str " "]))
  ++ [str "\nexit\n"]

/-- The full byte stream `run_command` writes to the shell's stdin. -/
def run_command_stdin (test_dir command_prelude : Str) (argv : Argv)
    (set_env : Bool) (stdin_text : Option Str) (cwd : Option Str) : Str :=
  (runCommandWrites test_dir command_prelude argv set_env stdin_text cwd).flatten

/-- The byte sequence described by claim C4 read literally: working
directory setup, environment sourcing, non-empty prelude, then the
echo-escaped stdin text and a pipe whenever `stdin_text` was supplied
(also when it is the empty string), the command, and the exit marker. -/
def claimedStdinLiteral (test_dir command_prelude : Str) (argv : Argv)
    (set_env : Bool) (stdin_text : Option Str) (cwd : Option Str) : Str :=
  str "cd " ++ shell_quote (cwd.getD test_dir) ++ [newlineChar]
  ++ (if set_env then
        str ". " ++ shell_quote (ospathJoin test_dir (str "env.sh")) ++ [newlineChar]
      else [])
  ++ (if command_prelude ≠ [] then command_prelude else [])
  ++ (match stdin_text with
      | some s => str "echo -en " ++ echo_quote s ++ str " | "
      | none => [])
  ++ (match argv with
      | .inl s => str "(" ++ s ++ str ")"
      | .inr args => args.flatMap (fun a => shell_quote a ++ str " "))
  ++ str "\nexit\n"

/-- The byte sequence of claim C4 as amended: identical to the literal
reading except that the echo block is emitted only when `stdin_text` was
supplied and non-empty (the source tests Python truthiness, under which a
supplied empty string produces no echo block). -/
def claimedStdinAmended (test_dir command_prelude : Str) (argv : Argv)
    (set_env : Bool) (stdin_text : Option Str) (cwd : Option Str) : Str :=
  str "cd " ++ shell_quote (cwd.getD test_dir) ++ [newlineChar]
  ++ (if set_env then
        str ". " ++ shell_quote (ospathJoin test_dir (str "env.sh")) ++ [newlineChar]
      else [])
  ++ (if command_prelude ≠ [] then command_prelude else [])
  ++ (match stdin_text with
      | some s => if s ≠ [] then str "echo -en " ++ echo_quote s ++ str " | " else []
      | none => [])
  ++ (match argv with
      | .inl s => str "(" ++ s ++ str ")"
      | .inr args => args.flatMap (fun a => shell_quote a ++ str " "))
  ++ str "\nexit\n"

theorem flatten_flatMap_pair {α : Type} (f g : α → Str) (l : List α) :
    (l.flatMap (fun a => [f a, g a])).flatten = l.flatMap (fun a => f a ++ g a) := by
  induction l with
  | nil => simp
  | cons a as ih => simp [ih]

/-- C4 counterexample: with `stdin_text` supplied as the empty string, the
bytes actually written differ from the claimed byte sequence (the source
omits the echo block for a supplied empty string). -/
theorem run_command_stdin_empty_stdin_counterexample :
    run_command_stdin (str "/t") [] (Sum.inr [str "x"]) false (some []) none ≠
      claimedStdinLiteral (str "/t") [] (Sum.inr [str "x"]) false (some []) none := by
  decide

/-- C4 (amended): the byte stream written by `run_command` is exactly the
claimed concatenation: cd line, optional env.sh sourcing, non-empty
prelude, echo-escaped stdin text piped into the command when supplied and
non-empty, the quoted or parenthesised command, and the final exit
marker. -/
theorem run_command_stdin_spec (test_dir command_prelude : Str) (argv : Argv)
    (set_env : Bool) (stdin_text : Option Str) (cwd : Option Str) :
    run_command_stdin test_dir command_prelude argv set_env stdin_text cwd =
      claimedStdinAmended test_dir command_prelude argv set_env stdin_text cwd := by
  unfold run_command_stdin runCommandWrites claimedStdinAmended
  rcases stdin_text with _ | t
  · cases argv <;> cases set_env <;> by_cases hp : command_prelude = [] <;>
      simp [hp, List.append_assoc, flatten_flatMap_pair]
  · by_cases ht : t = [] <;> cases argv <;> cases set_env <;>
      by_cases hp : command_prelude = [] <;>
      simp [hp, ht, List.append_assoc, flatten_flatMap_pair]

/-! ## transport.Command.wait

The exit-status policy of `Command.wait`.  The remote exit status that
`_end_process` obtains from the transport is passed explicitly; writing to
`self._done` and `self.returncode` is explicit state passing. -/

/-- The mutable state of a `transport.Command` that `wait` touches. -/
structure CommandState where
  returncode : Option Int
  done : Bool
  raiseonerr : Bool
  argv : Argv
deriving DecidableEq, Repr

/-- Result of `Command.wait`: either a normal return carrying
`self.returncode`, or a raised `CalledProcessError` carrying the exit code
and the invoked command. -/
inductive WaitResult
  | finished (rc : Option Int) (st : CommandState)
  | calledProcessError (rc : Int) (argv : Argv) (st : CommandState)
deriving DecidableEq, Repr

/-- Embedding of `Command.wait`.  `raiseArg = none` models the `DEFAULT`
sentinel, in which case the `raiseonerr` attribute is used.  A second call
on a done command returns the cached return code without raising. -/
def commandWait (st : CommandState) (exitStatus : Int) (raiseArg : Option Bool) :
    WaitResult :=
  let r := raiseArg.getD st.raiseonerr
  if st.done then .finished st.returncode st
  else
    if r = true ∧ exitStatus ≠ 0 then
      .calledProcessError exitStatus st.argv
        { st with returncode := some exitStatus, done := true }
    else .finished (some exitStatus)
        { st with returncode := some exitStatus, done := true }

/-- The state of a just-started command: not done, no return code yet, the
`raiseonerr` attribute as assigned by `run_command`. -/
def initialCommandState (argv : Argv) (raiseonerr : Bool) : CommandState :=
  { returncode := none, done := false, raiseonerr := raiseonerr, argv := argv }

/-- Embedding of the foreground path of `run_command`: after writing the
command, `command.raiseonerr = raiseonerr` is set and `command.wait()` is
called with no argument. -/
def runCommandForegroundWait (argv : Argv) (raiseonerr : Bool) (exitStatus : Int) :
    WaitResult :=
  commandWait (initialCommandState argv raiseonerr) exitStatus none

/-- C5: for a command that is not yet done (in particular for every
foreground `run_command`), waiting with a nonzero exit status and
`raiseonerr` true raises `CalledProcessError` carrying the exit code and
the invoked command; with `raiseonerr` false it returns normally with
that return code; and with exit status zero it never raises. -/
theorem command_wait_exit_policy (st : CommandState) (argv : Argv) (es : Int)
    (hdone : st.done = false) :
    (st.raiseonerr = true → es ≠ 0 →
      commandWait st es none =
        .calledProcessError es st.argv
          { st with returncode := some es, done := true }) ∧
    (st.raiseonerr = false →
      commandWait st es none =
        .finished (some es) { st with returncode := some es, done := true }) ∧
    (es = 0 →
      commandWait st es none =
        .finished (some es) { st with returncode := some es, done := true }) ∧
    (runCommandForegroundWait argv st.raiseonerr es =
      commandWait (initialCommandState argv st.raiseonerr) es none) := by
  refine ⟨?_, ?_, ?_, rfl⟩
  · intro h1 h2
    simp [commandWait, hdone, h1, h2]
  · intro h1
    simp [commandWait, hdone, h1]
  · intro h1
    subst h1
    simp [commandWait, hdone]

/-- C5 witness: a concrete not-done command with exit status 1. -/
theorem command_wait_exit_policy_witness :
    (initialCommandState (Sum.inl (str "false")) true).done = false ∧
    ((initialCommandState (Sum.inl (str "false")) true).raiseonerr = true →
      (1 : Int) ≠ 0 →
      commandWait (initialCommandState (Sum.inl (str "false")) true) 1 none =
        .calledProcessError 1 (initialCommandState (Sum.inl (str "false")) true).argv
          { initialCommandState (Sum.inl (str "false")) true with
              returncode := some 1, done := true }) ∧
    ((initialCommandState (Sum.inl (str "false")) true).raiseonerr = false →
      commandWait (initialCommandState (Sum.inl (str "false")) true) 1 none =
        .finished (some 1)
          { initialCommandState (Sum.inl (str "false")) true with
              returncode := some 1, done := true }) ∧
    ((1 : Int) = 0 →
      commandWait (initialCommandState (Sum.inl (str "false")) true) 1 none =
        .finished (some 1)
          { initialCommandState (Sum.inl (str "false")) true with
              returncode := some 1, done := true }) ∧
    (runCommandForegroundWait (Sum.inl (str "false"))
        (initialCommandState (Sum.inl (str "false")) true).raiseonerr 1 =
      commandWait
        (initialCommandState (Sum.inl (str "false"))
          (initialCommandState (Sum.inl (str "false")) true).raiseonerr) 1 none) := by
  refine ⟨rfl, ?_⟩
  exact command_wait_exit_policy (initialCommandState (Sum.inl (str "false")) true)
    (Sum.inl (str "false")) 1 rfl

/-! ## config.py: domains, hosts, and the filter engine

`Config.filter` mutates `self.domains` and the caller's description dicts
in place.  The embedding passes all mutated state explicitly: every
outcome constructor carries the domain list and the description list as
the caller observes them when the call returns or raises. -/

/-- The fields of `host.BaseHost` relevant to configuration handling. -/
structure Host where
  role : Str
  hostname : Str
  shortname : Str
  external_hostname : Str
  ip : Str
  host_type : Str
deriving DecidableEq, Repr

/-- The fields of `config.Domain` relevant to configuration handling. -/
structure Domain where
  type : Str
  name : Str
  hosts : List Host
deriving DecidableEq, Repr

/-- One resource descriptor of a filter call: the optional `type` key and
the `hosts` dict mapping roles to required counts.  The role-to-count dict
is an association list; Python dicts have pairwise-distinct keys. -/
structure Description where
  dtype : Option Str
  hosts : List (Str × Nat)
deriving DecidableEq, Repr

/-- The default domain type sentinel. -/
def defaultType : Str := str "default"

/-- Python `description.get('type', 'default')`. -/
def Description.getType (d : Description) : Str := d.dtype.getD defaultType

/-- Embedding of `Domain.hosts_by_role`. -/
def hostsByRole (hosts : List Host) (r : Str) : List Host :=
  hosts.filter (fun h => decide (h.role = r))

/-- Python `host_counts.get(role, 0)` on the association list. -/
def getCount : List (Str × Nat) → Str → Nat
  | [], _ => 0
  | p :: ps, r => if p.1 = r then p.2 else getCount ps r

/-- Python `host_counts[role] -= 1`: decrement the entry with the given
key (on a dict, exactly one entry has it). -/
def decCount (m : List (Str × Nat)) (r : Str) : List (Str × Nat) :=
  m.map (fun p => if p.1 = r then (p.1, p.2 - 1) else p)

/-- Embedding of `Domain.fits`: the type matches and every requested role
has at least the requested number of hosts. -/
def Domain.fits (dom : Domain) (desc : Description) : Bool :=
  decide (dom.type = desc.getType) &&
    desc.hosts.all (fun p => decide (p.2 ≤ (hostsByRole dom.hosts p.1).length))

/-- The host-selection loop of `Domain.filter`: walk the hosts in order,
keep a host while its role still has a positive count, decrementing that
count in the (shared, mutated) dict.  Returns the kept hosts and the
final state of the count dict. -/
def filterHosts : List Host → List (Str × Nat) → List Host × List (Str × Nat)
  | [], counts => ([], counts)
  | h :: hs, counts =>
    if 0 < getCount counts h.role then
      (h :: (filterHosts hs (decCount counts h.role)).1,
        (filterHosts hs (decCount counts h.role)).2)
    else filterHosts hs counts

/-- Result of `Domain.filter`: either the pruned domain together with the
final count dict, or the `ValueError` raised when counts remain positive
(in which case the domain's host list is unchanged but the count dict has
already been mutated). -/
inductive DomainFilterResult
  | ok (dom : Domain) (counts : List (Str × Nat))
  | error (counts : List (Str × Nat))
deriving DecidableEq, Repr

/-- Embedding of `Domain.filter`. -/
def Domain.filter (dom : Domain) (counts : List (Str × Nat)) : DomainFilterResult :=
  if (filterHosts dom.hosts counts).2.any (fun e => decide (0 < e.2)) then
    .error (filterHosts dom.hosts counts).2
  else
    .ok { dom with hosts := (filterHosts dom.hosts counts).1 }
      (filterHosts dom.hosts counts).2

/-- The scan `for domain in list(self.domains): if domain.fits(...)` with
the subsequent `self.domains.remove(domain)`: the first fitting domain and
the pool without it, or `none` when no domain fits. -/
def selectFit : List Domain → Description → Option (Domain × List Domain)
  | [], _ => none
  | d :: rest, desc =>
    if d.fits desc then some (d, rest)
    else
      match selectFit rest desc with
      | some (m, pool) => some (m, d :: pool)
      | none => none

/-- Result of the description loop of `Config.filter`.  The error
constructors carry the state the caller observes when the exception
propagates: `filterError` carries the index of the unmatched descriptor,
the remaining pool (`self.domains`, from which matched domains were
already removed), and the description list (whose matched entries were
already zeroed in place); `domainError` is the `ValueError` of
`Domain.filter` (never reached from `Config.filter`, see
`filterLoop_unsat`). -/
inductive LoopResult
  | ok (newDomains : List Domain) (descs : List Description)
  | filterError (idx : Nat) (pool : List Domain) (descs : List Description)
  | domainError (pool : List Domain) (descs : List Description)
deriving DecidableEq, Repr

/-- The `for i, description in enumerate(descriptions)` loop of
`Config.filter`. -/
def filterLoop : Nat → List Domain → List Description → LoopResult
  | _, _, [] => .ok [] []
  | i, pool, desc :: rest =>
    match selectFit pool desc with
    | none => .filterError i pool (desc :: rest)
    | some (dom, pool2) =>
      match dom.filter desc.hosts with
      | .error counts => .domainError pool ({ desc with hosts := counts } :: rest)
      | .ok dom2 counts =>
        match filterLoop (i + 1) pool2 rest with
        | .ok nds ds => .ok (dom2 :: nds) ({ desc with hosts := counts } :: ds)
        | .filterError j p ds => .filterError j p ({ desc with hosts := counts } :: ds)
        | .domainError p ds => .domainError p ({ desc with hosts := counts } :: ds)

/-- Outcome of `Config.filter` as observed by the caller; every
constructor carries the final domain list and description list. -/
inductive FilterOutcome
  | ok (domains : List Domain) (descs : List Description)
  | duplicateTypeError (domains : List Domain) (descs : List Description)
  | filterError (idx : Nat) (domains : List Domain) (descs : List Description)
  | domainError (domains : List Domain) (descs : List Description)
deriving DecidableEq, Repr

/-- Embedding of `Config.filter`: first the duplicate-type check
(`len(descriptions) != len(set(types))`), then the matching loop, and on
success `self.domains = new_domains`. -/
def configFilter (domains : List Domain) (descs : List Description) : FilterOutcome :=
  if (descs.map Description.getType).dedup.length ≠ descs.length then
    .duplicateTypeError domains descs
  else
    match filterLoop 0 domains descs with
    | .ok nds ds => .ok nds ds
    | .filterError i p ds => .filterError i p ds
    | .domainError p ds => .domainError p ds

/-! ### Lemmas about the host-selection loop -/

theorem decCount_cons (p : Str × Nat) (ps : List (Str × Nat)) (q : Str) :
    decCount (p :: ps) q =
      (if p.1 = q then (p.1, p.2 - 1) else p) :: decCount ps q := rfl

theorem hostsByRole_cons (h : Host) (hs : List Host) (r : Str) :
    hostsByRole (h :: hs) r =
      if h.role = r then h :: hostsByRole hs r else hostsByRole hs r := by
  by_cases hr : h.role = r <;> simp [hostsByRole, List.filter_cons, hr]

theorem getCount_decCount (m : List (Str × Nat)) (q r : Str) :
    getCount (decCount m q) r = if q = r then getCount m r - 1 else getCount m r := by
  induction m with
  | nil => simp [getCount, decCount]
  | cons p ps ih =>
    obtain ⟨k, v⟩ := p
    rw [decCount_cons]
    by_cases hq : k = q <;> by_cases hr : k = r
    · subst hq; subst hr
      simp [getCount]
    · subst hq
      simp [getCount, hr, ih]
    · subst hr
      rw [if_neg hq]
      have h1 : getCount ((k, v) :: decCount ps q) k = v := by simp [getCount]
      have h2 : getCount ((k, v) :: ps) k = v := by simp [getCount]
      rw [h1, h2, if_neg (fun hh => hq hh.symm)]
    · simp [getCount, hq, hr, ih]

theorem getCount_decCount_le (m : List (Str × Nat)) (q r : Str) :
    getCount (decCount m q) r ≤ getCount m r := by
  rw [getCount_decCount]
  split <;> omega

/-- The hosts of a given role kept by the selection loop are the first
`getCount` hosts of that role, in original order. -/
theorem hostsByRole_filterHosts (hosts : List Host) :
    ∀ counts r, hostsByRole (filterHosts hosts counts).1 r =
      (hostsByRole hosts r).take (getCount counts r) := by
  induction hosts with
  | nil => intro counts r; simp [filterHosts, hostsByRole]
  | cons h hs ih =>
    intro counts r
    by_cases hpos : 0 < getCount counts h.role
    · by_cases hr : h.role = r
      · subst hr
        obtain ⟨m, hm⟩ : ∃ m, getCount counts h.role = m + 1 :=
          ⟨getCount counts h.role - 1, (Nat.succ_pred_eq_of_pos hpos).symm⟩
        have hdec : getCount (decCount counts h.role) h.role = m := by
          rw [getCount_decCount, if_pos rfl, hm]
          omega
        simp only [filterHosts, if_pos hpos]
        rw [hostsByRole_cons, if_pos rfl, hostsByRole_cons, if_pos rfl,
          hm, List.take_succ_cons, ih, hdec]
      · simp only [filterHosts, if_pos hpos]
        rw [hostsByRole_cons, if_neg hr, hostsByRole_cons, if_neg hr, ih,
          getCount_decCount, if_neg hr]
    · simp only [filterHosts, if_neg hpos]
      by_cases hr : h.role = r
      · subst hr
        have hz : getCount counts h.role = 0 := by omega
        rw [ih, hz, hostsByRole_cons, if_pos rfl]
        simp
      · rw [ih, hostsByRole_cons, if_neg hr]

/-- Every host kept by the selection loop had a positive requested count. -/
theorem filterHosts_kept_pos (hosts : List Host) :
    ∀ counts h, h ∈ (filterHosts hosts counts).1 → 0 < getCount counts h.role := by
  induction hosts with
  | nil => intro counts h hmem; simp [filterHosts] at hmem
  | cons g gs ih =>
    intro counts h hmem
    by_cases hpos : 0 < getCount counts g.role
    · simp only [filterHosts, if_pos hpos, List.mem_cons] at hmem
      rcases hmem with rfl | hmem
      · exact hpos
      · have hrec := ih _ _ hmem
        have := getCount_decCount_le counts g.role h.role
        omega
    · simp only [filterHosts, if_neg hpos] at hmem
      exact ih _ _ hmem

/-- The final state of the count dict: each entry is decremented by the
number of kept hosts of its role. -/
theorem filterHosts_counts_eq (hosts : List Host) :
    ∀ counts, (filterHosts hosts counts).2 =
      counts.map (fun p =>
        (p.1, p.2 - (hostsByRole (filterHosts hosts counts).1 p.1).length)) := by
  induction hosts with
  | nil =>
    intro counts
    simp only [filterHosts, hostsByRole, List.filter_nil, List.length_nil,
      Nat.sub_zero]
    symm
    apply List.map_id''
    intro p
    exact Prod.mk.eta
  | cons h hs ih =>
    intro counts
    by_cases hpos : 0 < getCount counts h.role
    · simp only [filterHosts, if_pos hpos]
      rw [ih (decCount counts h.role)]
      unfold decCount
      rw [List.map_map]
      congr 1
      funext p
      simp only [Function.comp]
      by_cases hq : p.1 = h.role
      · rw [if_pos hq, hostsByRole_cons, if_pos hq.symm]
        simp only [List.length_cons, Prod.mk.injEq, true_and]
        omega
      · rw [if_neg hq, hostsByRole_cons, if_neg (fun hh => hq hh.symm)]
    · simp only [filterHosts, if_neg hpos]
      exact ih counts

/-- On an association list with pairwise-distinct keys, lookup of a member
entry key yields that entry value. -/
theorem getCount_eq_of_nodup (counts : List (Str × Nat))
    (hnd : (counts.map Prod.fst).Nodup) :
    ∀ p ∈ counts, getCount counts p.1 = p.2 := by
  induction counts with
  | nil => intro p hp; simp at hp
  | cons q qs ih =>
    intro p hp
    simp only [List.map_cons, List.nodup_cons] at hnd
    rcases List.mem_cons.mp hp with rfl | hp
    · simp [getCount]
    · have hne : q.1 ≠ p.1 := by
        intro hh
        exact hnd.1 (hh ▸ List.mem_map_of_mem Prod.fst hp)
      simp only [getCount, if_neg hne]
      exact ih hnd.2 p hp

/-- If every entry of the count dict is bounded by the number of available
hosts of its role, so is every lookup. -/
theorem getCount_le_of_all (counts : List (Str × Nat)) (f : Str → Nat)
    (hall : counts.all (fun p => decide (p.2 ≤ f p.1)) = true) (r : Str) :
    getCount counts r ≤ f r := by
  induction counts with
  | nil => simp [getCount]
  | cons p ps ih =>
    simp only [List.all_cons, Bool.and_eq_true, decide_eq_true_eq] at hall
    by_cases hr : p.1 = r
    · simp only [getCount, if_pos hr]
      exact hr ▸ hall.1
    · simp only [getCount, if_neg hr]
      exact ih hall.2

/-- Inversion of a successful `Domain.filter`: the result is the pruned
domain, the returned counts are the final dict state, and every count has
been driven to zero. -/
theorem domainFilter_ok_inv (dom : Domain) (cs : List (Str × Nat))
    (dom2 : Domain) (counts : List (Str × Nat))
    (h : Domain.filter dom cs = .ok dom2 counts) :
    dom2 = { dom with hosts := (filterHosts dom.hosts cs).1 } ∧
    counts = (filterHosts dom.hosts cs).2 ∧
    ∀ p ∈ counts, p.2 = 0 := by
  unfold Domain.filter at h
  split at h
  · simp at h
  · rename_i hguard
    injection h with h1 h2
    subst h1; subst h2
    refine ⟨rfl, rfl, ?_⟩
    intro p hp
    by_contra hne
    apply hguard
    exact List.any_eq_true.mpr ⟨p, hp, by simpa using Nat.pos_of_ne_zero hne⟩

/-- A fitting domain filters successfully: the count dict has distinct keys
(it is a Python dict), and `fits` guarantees enough hosts per requested
role, so the selection loop zeroes every count and the error branch is not
taken. -/
theorem domainFilter_ok_of_fits (dom : Domain) (desc : Description)
    (hnd : (desc.hosts.map Prod.fst).Nodup) (hfits : dom.fits desc = true) :
    Domain.filter dom desc.hosts =
      .ok { dom with hosts := (filterHosts dom.hosts desc.hosts).1 }
        (filterHosts dom.hosts desc.hosts).2 := by
  have hall : desc.hosts.all
      (fun p => decide (p.2 ≤ (hostsByRole dom.hosts p.1).length)) = true := by
    unfold Domain.fits at hfits
    simp only [Bool.and_eq_true] at hfits
    exact hfits.2
  have hzero : ∀ p ∈ (filterHosts dom.hosts desc.hosts).2, p.2 = 0 := by
    intro p hp
    rw [filterHosts_counts_eq] at hp
    obtain ⟨q, hq, rfl⟩ := List.mem_map.mp hp
    have h1 : getCount desc.hosts q.1 = q.2 := getCount_eq_of_nodup _ hnd q hq
    have h4 := getCount_le_of_all desc.hosts
      (fun r => (hostsByRole dom.hosts r).length) hall q.1
    have h3 : (hostsByRole (filterHosts dom.hosts desc.hosts).1 q.1).length =
        getCount desc.hosts q.1 := by
      rw [hostsByRole_filterHosts, List.length_take]
      omega
    dsimp only
    omega
  unfold Domain.filter
  rw [if_neg]
  intro hany
  obtain ⟨p, hp, hpos⟩ := List.any_eq_true.mp hany
  have := hzero p hp
  simp at hpos
  omega

/-! ### Lemmas about the domain-selection scan -/

theorem selectFit_some (pool : List Domain) (desc : Description) :
    ∀ dom pool2, selectFit pool desc = some (dom, pool2) →
      dom ∈ pool ∧ dom.fits desc = true ∧ pool2.Sublist pool := by
  induction pool with
  | nil => intro dom pool2 h; simp [selectFit] at h
  | cons d rest ih =>
    intro dom pool2 h
    by_cases hf : d.fits desc = true
    · simp only [selectFit, if_pos hf] at h
      injection h with h1
      injection h1 with h1 h2
      subst h1; subst h2
      exact ⟨List.mem_cons_self d rest, hf, List.Sublist.cons d (List.Sublist.refl rest)⟩
    · simp only [selectFit, if_neg hf] at h
      rcases hrec : selectFit rest desc with _ | ⟨m, pool3⟩
      · rw [hrec] at h; simp at h
      · rw [hrec] at h
        injection h with h1
        injection h1 with h1 h2
        subst h1; subst h2
        obtain ⟨hm, hf2, hsub⟩ := ih m pool3 hrec
        exact ⟨List.mem_cons_of_mem d hm, hf2, List.Sublist.cons₂ d hsub⟩

theorem selectFit_eq_none (pool : List Domain) (desc : Description)
    (h : ∀ d ∈ pool, d.fits desc = false) : selectFit pool desc = none := by
  induction pool with
  | nil => rfl
  | cons d rest ih =>
    have hd : d.fits desc = false := h d (List.mem_cons_self d rest)
    have ih2 := ih (fun x hx => h x (List.mem_cons_of_mem d hx))
    simp [selectFit, hd, ih2]

/-! ### The description loop -/

/-- Inversion of a successful run of the description loop: each final
domain is a domain of the scan pool that fits its descriptor, pruned by
the selection loop, in descriptor order. -/
theorem filterLoop_ok_forall₂ (descs : List Description) :
    ∀ (i : Nat) (pool : List Domain) (nds : List Domain) (ds : List Description),
      filterLoop i pool descs = .ok nds ds →
      List.Forall₂ (fun desc res => ∃ dom, dom ∈ pool ∧ dom.fits desc = true ∧
        res = { dom with hosts := (filterHosts dom.hosts desc.hosts).1 })
        descs nds := by
  induction descs with
  | nil =>
    intro i pool nds ds h
    simp only [filterLoop] at h
    injection h with h1 h2
    subst h1
    exact List.Forall₂.nil
  | cons desc rest ih =>
    intro i pool nds ds h
    rcases hsel : selectFit pool desc with _ | ⟨dom, pool2⟩ <;>
      simp only [filterLoop, hsel] at h
    · exact LoopResult.noConfusion h
    · rcases hdf : Domain.filter dom desc.hosts with ⟨dom2, counts⟩ | counts <;>
        simp only [hdf] at h
      · rcases hloop : filterLoop (i + 1) pool2 rest with ⟨nds2, ds2⟩ |
          ⟨j, p2, ds2⟩ | ⟨p2, ds2⟩ <;> simp only [hloop] at h
        · injection h with h1 h2
          subst h1
          obtain ⟨hm, hf, hsub⟩ := selectFit_some pool desc dom pool2 hsel
          obtain ⟨hd2, _, _⟩ := domainFilter_ok_inv dom desc.hosts dom2 counts hdf
          refine List.Forall₂.cons ⟨dom, hm, hf, hd2⟩ ?_
          refine (ih (i + 1) pool2 nds2 ds2 hloop).imp ?_
          intro a b hab
          obtain ⟨dom3, hm3, hf3, he3⟩ := hab
          exact ⟨dom3, hsub.subset hm3, hf3, he3⟩
        · exact LoopResult.noConfusion h
        · exact LoopResult.noConfusion h
      · exact LoopResult.noConfusion h

/-- C1: when `filter` succeeds, the topology holds exactly one domain per
descriptor, in descriptor order; the i-th domain is a domain of the
original topology with the descriptor's (defaulted) type, keeping for
every role exactly the requested number of hosts — the first such hosts
in the domain's original host order — keeping no host of a role that was
not requested with a positive count, and every unmatched domain has been
discarded. -/
theorem config_filter_ok_spec (doms : List Domain) (descs : List Description)
    (finalDoms : List Domain) (finalDescs : List Description)
    (hok : configFilter doms descs = .ok finalDoms finalDescs) :
    finalDoms.length = descs.length ∧
    List.Forall₂ (fun desc res =>
      res.type = desc.getType ∧
      (∀ r, (hostsByRole res.hosts r).length = getCount desc.hosts r) ∧
      (∀ h ∈ res.hosts, 0 < getCount desc.hosts h.role) ∧
      (∃ dom, dom ∈ doms ∧ res.name = dom.name ∧
        ∀ r, hostsByRole res.hosts r =
          (hostsByRole dom.hosts r).take (getCount desc.hosts r)))
      descs finalDoms := by
  unfold configFilter at hok
  split at hok
  · exact FilterOutcome.noConfusion hok
  · rcases hloop : filterLoop 0 doms descs with ⟨nds, ds⟩ | ⟨j, p2, ds⟩ |
      ⟨p2, ds⟩ <;> rw [hloop] at hok <;>
      [skip; exact FilterOutcome.noConfusion hok;
        exact FilterOutcome.noConfusion hok]
    injection hok with h1 h2
    subst h1; subst h2
    have base := filterLoop_ok_forall₂ descs 0 doms nds ds hloop
    refine ⟨base.length_eq.symm, ?_⟩
    refine base.imp ?_
    intro desc res hdr
    obtain ⟨dom, hm, hf, he⟩ := hdr
    have hfits := hf
    unfold Domain.fits at hfits
    simp only [Bool.and_eq_true, decide_eq_true_eq] at hfits
    obtain ⟨htype, hall⟩ := hfits
    have hall2 : desc.hosts.all
        (fun p => decide (p.2 ≤ (hostsByRole dom.hosts p.1).length)) = true := by
      unfold Domain.fits at hf
      simp only [Bool.and_eq_true] at hf
      exact hf.2
    subst he
    refine ⟨htype, ?_, ?_, dom, hm, rfl, ?_⟩
    · intro r
      dsimp only
      have h4 := getCount_le_of_all desc.hosts
        (fun rr => (hostsByRole dom.hosts rr).length) hall2 r
      rw [hostsByRole_filterHosts, List.length_take]
      omega
    · intro h hmem
      exact filterHosts_kept_pos dom.hosts desc.hosts h hmem
    · intro r
      dsimp only
      exact hostsByRole_filterHosts dom.hosts desc.hosts r

/-- Example host for the C1 witness. -/
def c1Host : Host :=
  { role := str "master", hostname := str "m.d", shortname := str "m",
    external_hostname := str "m.d", ip := str "1", host_type := str "default" }

/-- Example domain for the C1 witness. -/
def c1Dom : Domain := { type := str "default", name := str "d", hosts := [c1Host] }

/-- Example descriptor for the C1 witness. -/
def c1Desc : Description := { dtype := none, hosts := [(str "master", 1)] }

/-- The C1 example descriptor after the call zeroed its count in place. -/
def c1DescAfter : Description := { dtype := none, hosts := [(str "master", 0)] }

/-- C1 witness: a one-domain, one-host topology and one descriptor. -/
theorem config_filter_ok_spec_witness :
    configFilter [c1Dom] [c1Desc] = .ok [c1Dom] [c1DescAfter] ∧
    ([c1Dom] : List Domain).length = ([c1Desc] : List Description).length ∧
    List.Forall₂ (fun desc res =>
      res.type = desc.getType ∧
      (∀ r, (hostsByRole res.hosts r).length = getCount desc.hosts r) ∧
      (∀ h ∈ res.hosts, 0 < getCount desc.hosts h.role) ∧
      (∃ dom, dom ∈ [c1Dom] ∧ res.name = dom.name ∧
        ∀ r, hostsByRole res.hosts r =
          (hostsByRole dom.hosts r).take (getCount desc.hosts r)))
      [c1Desc] [c1Dom] := by
  refine ⟨by decide, ?_⟩
  exact config_filter_ok_spec [c1Dom] [c1Desc] [c1Dom] [c1DescAfter] (by decide)

/-- C3: two descriptors with the same (defaulted) domain type make
`filter` raise the duplicate-type error, whatever the topology; the check
precedes the matching loop, and the caller-visible state is exactly the
input state. -/
theorem config_filter_duplicate_type (doms : List Domain) (descs : List Description)
    (i j : Nat) (hi : i < descs.length) (hj : j < descs.length) (hij : i ≠ j)
    (heq : (descs.get ⟨i, hi⟩).getType = (descs.get ⟨j, hj⟩).getType) :
    configFilter doms descs = .duplicateTypeError doms descs := by
  have hmap : ¬ (descs.map Description.getType).Nodup := by
    intro hnd
    have hieq : (⟨i, by simpa using hi⟩ : Fin (descs.map Description.getType).length) =
        ⟨j, by simpa using hj⟩ := by
      apply List.nodup_iff_injective_get.mp hnd
      simp only [List.get_eq_getElem, List.getElem_map]
      simpa [List.get_eq_getElem] using heq
    exact hij (by simpa using congrArg Fin.val hieq)
  have hcond : (descs.map Description.getType).dedup.length ≠ descs.length := by
    intro hl
    apply hmap
    have hsub := List.dedup_sublist (descs.map Description.getType)
    have hde : (descs.map Description.getType).dedup =
        descs.map Description.getType :=
      hsub.eq_of_length (by simpa using hl)
    rw [← hde]
    exact List.nodup_dedup _
  unfold configFilter
  rw [if_pos hcond]

/-- C3 witness: two descriptors with no explicit type both default to the
default type. -/
theorem config_filter_duplicate_type_witness :
    (0 : Nat) ≠ 1 ∧
    configFilter ([] : List Domain)
        [{ dtype := none, hosts := [] }, { dtype := none, hosts := [] }] =
      .duplicateTypeError []
        [{ dtype := none, hosts := [] }, { dtype := none, hosts := [] }] :=
  ⟨by decide,
    config_filter_duplicate_type [] _ 0 1 (by decide) (by decide) (by decide) rfl⟩

/-- If some descriptor fits no domain of the current pool (and every count
dict has distinct keys, as Python dicts do), the description loop ends in
the FilterError outcome, and the pool it reports is a sublist of the pool
it started from: matched domains have been removed, unmatched domains are
untouched. -/
theorem filterLoop_unsat (descs : List Description) :
    ∀ (i : Nat) (pool : List Domain),
      (∀ d ∈ descs, (d.hosts.map Prod.fst).Nodup) →
      (∃ j, ∃ hj : j < descs.length, ∀ dom ∈ pool,
          dom.fits (descs.get ⟨j, hj⟩) = false) →
      ∃ k p ds, filterLoop i pool descs = .filterError k p ds ∧
        p.Sublist pool := by
  induction descs with
  | nil =>
    intro i pool _ hex
    obtain ⟨j, hj, _⟩ := hex
    exact absurd hj (by simp)
  | cons desc rest ih =>
    intro i pool hkeys hex
    rcases hsel : selectFit pool desc with _ | ⟨dom, pool2⟩
    · refine ⟨i, pool, desc :: rest, ?_, List.Sublist.refl pool⟩
      simp [filterLoop, hsel]
    · obtain ⟨j, hj, hnofit⟩ := hex
      obtain ⟨hm, hf, hsub⟩ := selectFit_some pool desc dom pool2 hsel
      cases j with
      | zero =>
        have h0 : dom.fits desc = false := hnofit dom hm
        rw [hf] at h0
        exact Bool.noConfusion h0
      | succ j2 =>
        have hj2 : j2 < rest.length := by simpa using hj
        have hnofit2 : ∀ d ∈ pool2, d.fits (rest.get ⟨j2, hj2⟩) = false := by
          intro d hd
          exact hnofit d (hsub.subset hd)
        have hdf := domainFilter_ok_of_fits dom desc
          (hkeys desc (List.mem_cons_self desc rest)) hf
        obtain ⟨k, p, ds, hrec, hrsub⟩ := ih (i + 1) pool2
          (fun d hd => hkeys d (List.mem_cons_of_mem desc hd)) ⟨j2, hj2, hnofit2⟩
        refine ⟨k, p,
          { desc with hosts := (filterHosts dom.hosts desc.hosts).2 } :: ds,
          ?_, hrsub.trans hsub⟩
        simp [filterLoop, hsel, hdf, hrec]

/-- C2 (amended): with pairwise-distinct descriptor types, if some
descriptor fits no domain of the topology — in particular if it requests
more hosts of some role than any domain of its type provides — then
`filter` raises the resource-unavailable FilterError; however the call is
not all-or-nothing: the domain list the caller then observes is a sublist
of the original one, from which the domains matched by earlier
descriptors have already been removed (after being pruned in place). -/
theorem config_filter_unsatisfiable (doms : List Domain) (descs : List Description)
    (hdistinct : (descs.map Description.getType).Nodup)
    (hkeys : ∀ d ∈ descs, (d.hosts.map Prod.fst).Nodup)
    (j : Nat) (hj : j < descs.length)
    (hnofit : ∀ dom ∈ doms, dom.fits (descs.get ⟨j, hj⟩) = false) :
    ∃ i pool ds, configFilter doms descs = .filterError i pool ds ∧
      pool.Sublist doms := by
  obtain ⟨k, p, ds, hrec, hsub⟩ := filterLoop_unsat descs 0 doms hkeys ⟨j, hj, hnofit⟩
  refine ⟨k, p, ds, ?_, hsub⟩
  have hcond : ¬ ((descs.map Description.getType).dedup.length ≠ descs.length) := by
    rw [List.dedup_eq_self.mpr hdistinct]
    simp
  unfold configFilter
  rw [if_neg hcond, hrec]

/-- Example hosts and domains for the C2 counterexample. -/
def c2HostM : Host :=
  { role := str "master", hostname := str "m.a", shortname := str "m",
    external_hostname := str "m.a", ip := str "1", host_type := str "default" }

/-- Example host of the type-B domain for the C2 counterexample. -/
def c2HostY : Host :=
  { role := str "y", hostname := str "y.b", shortname := str "y",
    external_hostname := str "y.b", ip := str "2", host_type := str "default" }

/-- Example default-type domain for the C2 counterexample. -/
def c2DomA : Domain := { type := str "default", name := str "a", hosts := [c2HostM] }

/-- Example type-B domain for the C2 counterexample. -/
def c2DomB : Domain := { type := str "B", name := str "b", hosts := [c2HostY] }

/-- C2 counterexample: the second descriptor requests a host role the
type-B domain does not provide, so `filter` raises FilterError — but the
caller-visible domain list at that point is `[c2DomB]`, not the original
`[c2DomA, c2DomB]`: the first domain was already matched, pruned and
removed, and the first descriptor's count was already zeroed in place.
The failed call is therefore not all-or-nothing. -/
theorem config_filter_not_atomic_counterexample :
    configFilter [c2DomA, c2DomB]
        [{ dtype := none, hosts := [(str "master", 1)] },
          { dtype := some (str "B"), hosts := [(str "x", 1)] }] =
      .filterError 1 [c2DomB]
        [{ dtype := none, hosts := [(str "master", 0)] },
          { dtype := some (str "B"), hosts := [(str "x", 1)] }] ∧
    [c2DomB] ≠ [c2DomA, c2DomB] := by decide

/-- Inversion of a successful run of the description loop, on the
descriptor side: the call hands back descriptors whose types and role
keys are unchanged but whose counts have all been zeroed in place. -/
theorem filterLoop_ok_descs (descs : List Description) :
    ∀ (i : Nat) (pool : List Domain) (nds : List Domain) (ds : List Description),
      filterLoop i pool descs = .ok nds ds →
      List.Forall₂ (fun d0 d1 => d1.dtype = d0.dtype ∧
        d1.hosts.map Prod.fst = d0.hosts.map Prod.fst ∧
        ∀ p ∈ d1.hosts, p.2 = 0) descs ds := by
  induction descs with
  | nil =>
    intro i pool nds ds h
    simp only [filterLoop] at h
    injection h with h1 h2
    subst h2
    exact List.Forall₂.nil
  | cons desc rest ih =>
    intro i pool nds ds h
    rcases hsel : selectFit pool desc with _ | ⟨dom, pool2⟩ <;>
      simp only [filterLoop, hsel] at h
    · exact LoopResult.noConfusion h
    · rcases hdf : Domain.filter dom desc.hosts with ⟨dom2, counts⟩ | counts <;>
        simp only [hdf] at h
      · rcases hloop : filterLoop (i + 1) pool2 rest with ⟨nds2, ds2⟩ |
          ⟨j, p2, ds2⟩ | ⟨p2, ds2⟩ <;> simp only [hloop] at h
        · injection h with h1 h2
          subst h2
          obtain ⟨_, hcounts, hzero⟩ := domainFilter_ok_inv dom desc.hosts dom2 counts hdf
          refine List.Forall₂.cons ⟨rfl, ?_, hzero⟩ (ih (i + 1) pool2 nds2 ds2 hloop)
          subst hcounts
          rw [filterHosts_counts_eq, List.map_map]
          rfl
        · exact LoopResult.noConfusion h
        · exact LoopResult.noConfusion h
      · exact LoopResult.noConfusion h

/-- C10 (amended): `filter` does not retain the descriptors, but it does
modify them: a successful call zeroes, in place, every role count of every
descriptor's hosts mapping (the types and the role keys are unchanged). -/
theorem config_filter_zeroes_descriptors (doms : List Domain)
    (descs : List Description) (finalDoms : List Domain)
    (finalDescs : List Description)
    (hok : configFilter doms descs = .ok finalDoms finalDescs) :
    List.Forall₂ (fun d0 d1 => d1.dtype = d0.dtype ∧
      d1.hosts.map Prod.fst = d0.hosts.map Prod.fst ∧
      ∀ p ∈ d1.hosts, p.2 = 0) descs finalDescs := by
  unfold configFilter at hok
  split at hok
  · exact FilterOutcome.noConfusion hok
  · rcases hloop : filterLoop 0 doms descs with ⟨nds, ds⟩ | ⟨j, p2, ds⟩ |
      ⟨p2, ds⟩ <;> rw [hloop] at hok <;>
      [skip; exact FilterOutcome.noConfusion hok;
        exact FilterOutcome.noConfusion hok]
    injection hok with h1 h2
    subst h1; subst h2
    exact filterLoop_ok_descs descs 0 doms nds ds hloop

/-- Example host for the C10 counterexample. -/
def c10Host : Host :=
  { role := str "master", hostname := str "m.d", shortname := str "m",
    external_hostname := str "m.d", ip := str "1", host_type := str "default" }

/-- Example domain for the C10 counterexample. -/
def c10Dom : Domain := { type := str "default", name := str "d", hosts := [c10Host] }

/-- C10 counterexample: after a successful `filter`, the caller's
descriptor no longer holds the count it passed in — the requested count 1
for role master has been decremented to 0 in place. -/
theorem config_filter_descriptor_mutation_counterexample :
    configFilter [c10Dom] [{ dtype := none, hosts := [(str "master", 1)] }] =
      .ok [c10Dom] [{ dtype := none, hosts := [(str "master", 0)] }] ∧
    ({ dtype := none, hosts := [(str "master", 0)] } : Description) ≠
      { dtype := none, hosts := [(str "master", 1)] } := by decide

/-- C10 witness: the amended statement at the C10 counterexample input. -/
theorem config_filter_zeroes_descriptors_witness :
    List.Forall₂ (fun (d0 d1 : Description) => d1.dtype = d0.dtype ∧
      d1.hosts.map Prod.fst = d0.hosts.map Prod.fst ∧
      ∀ p ∈ d1.hosts, p.2 = 0)
      [{ dtype := none, hosts := [(str "master", 1)] }]
      [{ dtype := none, hosts := [(str "master", 0)] }] :=
  config_filter_zeroes_descriptors [c10Dom]
    [{ dtype := none, hosts := [(str "master", 1)] }]
    [c10Dom] [{ dtype := none, hosts := [(str "master", 0)] }] (by decide)

/-- C2 witness: a topology whose only domain has the wrong type for the
single descriptor. -/
theorem config_filter_unsatisfiable_witness :
    ∃ i pool ds,
      configFilter [c2DomB] [{ dtype := none, hosts := [(str "master", 1)] }] =
        .filterError i pool ds ∧ pool.Sublist [c2DomB] :=
  config_filter_unsatisfiable [c2DomB]
    [{ dtype := none, hosts := [(str "master", 1)] }]
    (by decide) (by decide) 0 (by decide) (by decide)

/-! ## Loading and exporting configurations

Embeddings of `Config.from_dict` / `Config.__init__`, `Domain.from_dict`,
`BaseHost.from_dict` / `BaseHost.__init__`, and the corresponding
`to_dict` exporters.  An input mapping is modelled as a record with one
optional field per key the loader consumes, plus the list of remaining,
unrecognized keys (`extraKeys`); a key explicitly set to Python `None`
behaves, for every key the loaders read with plain `.get`, like an absent
key, which the `Option` fields model directly.  Name resolution
(`socket.gethostbyname`, and the `dig` call in IPv6 mode) is an external
effect, abstracted as a `resolve` function parameter. -/

/-- The dot character. -/
def dotChar : Char := Char.ofNat 46

/-- Python `hostname.partition('.')[0]`: the part before the first dot. -/
def beforeFirstDot (s : Str) : Str := s.takeWhile (fun c => ¬ c = dotChar)

/-- Python `hostname.endswith('.')`. -/
def endsWithDot (s : Str) : Bool := s.getLast? = some dotChar

/-- Python `'.' in hostname`. -/
def containsDot (s : Str) : Bool := s.any (fun c => c = dotChar)

/-- The name preprocessing of `BaseHost.from_dict`: a name without a dot
gets the owning domain's name appended. -/
def fromDictName (name domainName : Str) : Str :=
  if containsDot name then name else name ++ dotChar :: domainName

/-- The hostname derivation of `BaseHost.__init__`: a name with a single
trailing dot is used minus that dot; otherwise the hostname is the part
of the name before its first dot, joined with the owning domain's name. -/
def deriveHostname (hostname domainName : Str) : Str :=
  if endsWithDot hostname then hostname.dropLast
  else beforeFirstDot hostname ++ dotChar :: domainName

/-- The full hostname derivation at load time: `from_dict` preprocessing
followed by the `__init__` derivation. -/
def loadHostname (name domainName : Str) : Str :=
  deriveHostname (fromDictName name domainName) domainName

/-- Python `str.lower()` (ASCII case folding, as applied to roles). -/
def toLowerStr (s : Str) : Str := s.map Char.toLower

/-- Errors raised during configuration loading. -/
inductive LoadErr
  | extraKeys (place : Str) (keys : List Str)
  | keyError (key : Str)
  | ipError (hostname : Str)
deriving DecidableEq, Repr

/-- A host entry mapping.  `extraKeys` are the keys left over after the
loader popped every key it consumes. -/
structure HostDict where
  name : Str
  role : Option Str := none
  ip : Option Str := none
  external_hostname : Option Str := none
  username : Option Str := none
  password : Option Str := none
  host_type : Option Str := none
  extraKeys : List Str := []
deriving DecidableEq, Repr

/-- A domain entry mapping. -/
structure DomainDict where
  dtype : Option Str := none
  name : Str
  hosts : List HostDict := []
  extraKeys : List Str := []
deriving DecidableEq, Repr

/-- The configuration mapping fed to `Config.from_dict`. -/
structure ConfigDict where
  test_dir : Option Str := none
  ssh_key_filename : Option Str := none
  ssh_password : Option Str := none
  ssh_username : Option Str := none
  ipv6 : Option Bool := none
  windows_test_dir : Option Str := none
  root_ssh_key_filename : Option Str := none
  root_password : Option Str := none
  admin_password : Option Str := none
  domains : List DomainDict := []
  extraKeys : List Str := []
deriving DecidableEq, Repr

/-- The loaded `Config` object (the fields the claims are about). -/
structure Config where
  test_dir : Str
  ssh_key_filename : Option Str
  ssh_password : Option Str
  ssh_username : Str
  ipv6 : Bool
  windows_test_dir : Str
  domains : List Domain
deriving DecidableEq, Repr

/-- Python truthiness of an optional string (`None` and the empty string
are falsy). -/
def truthy : Option Str → Bool
  | none => false
  | some s => ¬ s = []

/-- The `host_classes` lookup of `Domain.get_host_class`: only the keys
`default` and `windows` exist; any other `host_type` raises KeyError. -/
def hostTypeValid (ht : Str) : Bool := ht = str "default" ∨ ht = str "windows"

/-- The IP determination of `BaseHost.__init__`: a truthy `ip` argument is
used as given; otherwise the external hostname is resolved (DNS lookup,
abstracted as `resolve`), and a falsy result raises RuntimeError. -/
def hostIp (resolve : Str → Option Str) (ipArg : Option Str) (ext : Str) :
    Except LoadErr Str :=
  if truthy ipArg then .ok (ipArg.getD [])
  else
    match resolve ext with
    | some i => if ¬ i = [] then .ok i else .error (.ipError ext)
    | none => .error (.ipError ext)

/-- Embedding of `Domain.get_host_class` followed by
`BaseHost.from_dict` and `BaseHost.__init__` for one host entry of the
domain named `dn`. -/
def hostFromDict (resolve : Str → Option Str) (dn : Str) (hd : HostDict) :
    Except LoadErr Host :=
  if ¬ hostTypeValid (hd.host_type.getD (str "default")) then
    .error (.keyError (hd.host_type.getD (str "default")))
  else if ¬ hd.extraKeys = [] then
    .error (.extraKeys (fromDictName hd.name dn) hd.extraKeys)
  else
    match hostIp resolve hd.ip
        (if truthy hd.external_hostname then hd.external_hostname.getD []
          else fromDictName hd.name dn) with
    | .error e => .error e
    | .ok ip =>
      .ok { role := (match hd.role with
              | some r => toLowerStr r
              | none => str "master"),
            hostname := deriveHostname (fromDictName hd.name dn) dn,
            shortname := beforeFirstDot (fromDictName hd.name dn),
            external_hostname := (if truthy hd.external_hostname
              then hd.external_hostname.getD [] else fromDictName hd.name dn),
            ip := ip,
            host_type := hd.host_type.getD (str "default") }

/-- Error-propagating map, as the `for host_dict in dct.pop('hosts')`
loop of `Domain.from_dict` and the domain loop of `Config.__init__`. -/
def mapLoad {α β : Type} (f : α → Except LoadErr β) : List α → Except LoadErr (List β)
  | [] => .ok []
  | a :: as =>
    match f a with
    | .error e => .error e
    | .ok b =>
      match mapLoad f as with
      | .error e => .error e
      | .ok bs => .ok (b :: bs)

/-- Embedding of `Domain.from_dict`: pop `type` (default `default`), pop
`name`, load the hosts, then `check_config_dict_empty` raises on any
leftover key. -/
def domainFromDict (resolve : Str → Option Str) (dd : DomainDict) :
    Except LoadErr Domain :=
  match mapLoad (hostFromDict resolve dd.name) dd.hosts with
  | .error e => .error e
  | .ok hs =>
    if ¬ dd.extraKeys = [] then .error (.extraKeys dd.name dd.extraKeys)
    else .ok { type := dd.dtype.getD (str "default"), name := dd.name, hosts := hs }

/-- The effective `ssh_password` argument after the legacy alias
`root_password` overwrote the canonical key. -/
def configPassword (cd : ConfigDict) : Option Str :=
  match cd.root_password with
  | some v => some v
  | none => cd.ssh_password

/-- The effective `ssh_key_filename` argument after the legacy alias
`root_ssh_key_filename` overwrote the canonical key. -/
def configKeyRaw (cd : ConfigDict) : Option Str :=
  match cd.root_ssh_key_filename with
  | some v => some v
  | none => cd.ssh_key_filename

/-- The `ssh_key_filename` attribute: a default key path when neither a
password nor a key file is configured (Python truthiness). -/
def configKeyFilename (cd : ConfigDict) : Option Str :=
  if ¬ truthy (configPassword cd) ∧ ¬ truthy (configKeyRaw cd) then
    some (str "~/.ssh/id_rsa")
  else configKeyRaw cd

/-- Embedding of `Config.from_dict` and `Config.__init__`.  The legacy
aliases `root_ssh_key_filename` / `root_password` overwrite the canonical
keys.  NOTE (source line config.py:90): the source computes the extra
config-level keys and builds `ValueError(...)` for them but never raises
it — the value of the expression is discarded — so unrecognized
config-level keys are silently ignored; this embedding reproduces that
behaviour and therefore never reads `cd.extraKeys`. -/
def configFromDict (resolve : Str → Option Str) (cd : ConfigDict) :
    Except LoadErr Config :=
  match mapLoad (domainFromDict resolve) cd.domains with
  | .error e => .error e
  | .ok ds =>
    .ok { test_dir := cd.test_dir.getD (str "/root/multihost_tests"),
          ssh_key_filename := configKeyFilename cd,
          ssh_password := configPassword cd,
          ssh_username := cd.ssh_username.getD (str "root"),
          ipv6 := cd.ipv6.getD false,
          windows_test_dir := cd.windows_test_dir.getD (str "/home/Administrator"),
          domains := ds }

/-- Embedding of `BaseHost.to_dict`. -/
def hostToDict (h : Host) : HostDict :=
  { name := h.hostname, ip := some h.ip, role := some h.role,
    external_hostname := some h.external_hostname,
    host_type := if ¬ h.host_type = str "default" then some h.host_type else none }

/-- Embedding of `Domain.to_dict`. -/
def domainToDict (d : Domain) : DomainDict :=
  { dtype := some d.type, name := d.name, hosts := d.hosts.map hostToDict }

/-- Embedding of `Config.to_dict`: the domains plus the autosaved init
arguments (`windows_test_dir` is not among `init_args` and is not
exported). -/
def configToDict (c : Config) : ConfigDict :=
  { test_dir := some c.test_dir, ssh_key_filename := c.ssh_key_filename,
    ssh_password := c.ssh_password, ssh_username := some c.ssh_username,
    ipv6 := some c.ipv6, domains := c.domains.map domainToDict }

/-! ### C7: hostname derivation -/

theorem containsDot_of_endsWithDot (s : Str) (h : endsWithDot s = true) :
    containsDot s = true := by
  unfold endsWithDot at h
  have h2 : s.getLast? = some dotChar := of_decide_eq_true h
  have h3 : dotChar ∈ s.getLast? := by rw [Option.mem_def]; exact h2
  obtain ⟨hne, heq⟩ := List.mem_getLast?_eq_getLast h3
  have hmem : dotChar ∈ s := by rw [heq]; exact List.getLast_mem hne
  unfold containsDot
  exact List.any_eq_true.mpr ⟨dotChar, hmem, by simp⟩

theorem takeWhile_append_dot (xs : Str) (ys : Str)
    (hx : ∀ c ∈ xs, ¬ c = dotChar) :
    (xs ++ dotChar :: ys).takeWhile (fun c => ¬ c = dotChar) = xs := by
  induction xs with
  | nil => simp [List.takeWhile]
  | cons a as ih =>
    have ha : ¬ a = dotChar := hx a (List.mem_cons_self a as)
    simp only [List.cons_append, List.takeWhile_cons]
    rw [if_pos (by simpa using ha)]
    rw [ih (fun c hc => hx c (List.mem_cons_of_mem a hc))]

theorem endsWithDot_append_dot (xs ys : Str) (hy : ys ≠ [])
    (hys : endsWithDot ys = false) :
    endsWithDot (xs ++ dotChar :: ys) = false := by
  unfold endsWithDot at *
  rw [List.getLast?_append_cons]
  rcases ys with _ | ⟨d, ds⟩
  · exact absurd rfl hy
  · rw [List.getLast?_cons_cons]
    exact hys

/-- C7 counterexample: a configured host name that contains dots but no
trailing dot is not used verbatim — everything after its first dot is
replaced by the owning domain's name. -/
theorem hostname_not_verbatim_counterexample :
    loadHostname (str "master.other.example") (str "adomain.test") =
      str "master.adomain.test" ∧
    ¬ (str "master.adomain.test" = str "master.other.example") := by decide

/-- C7 (amended): hostname derivation at load time.  A dotless configured
name yields name.domain, provided the domain name is nonempty and has no
trailing dot; a configured name with a single trailing dot is used
verbatim minus that dot; and a configured name containing a dot but not
ending in one yields its part before the first dot joined with the domain
name (dropping the rest of the configured name). -/
theorem load_hostname_spec (name dn : Str) :
    (containsDot name = false → dn ≠ [] → endsWithDot dn = false →
      loadHostname name dn = name ++ dotChar :: dn) ∧
    (endsWithDot name = true →
      loadHostname name dn = name.dropLast) ∧
    (containsDot name = true → endsWithDot name = false →
      loadHostname name dn = beforeFirstDot name ++ dotChar :: dn) := by
  refine ⟨?_, ?_, ?_⟩
  · intro hnd hdn hdne
    unfold loadHostname fromDictName
    rw [if_neg (by simp [hnd])]
    unfold deriveHostname
    rw [if_neg (by simp [endsWithDot_append_dot name dn hdn hdne])]
    unfold beforeFirstDot
    rw [takeWhile_append_dot name dn]
    intro c hc
    intro hcd
    have : containsDot name = true := List.any_eq_true.mpr ⟨c, hc, by simp [hcd]⟩
    rw [hnd] at this
    exact Bool.noConfusion this
  · intro hend
    unfold loadHostname fromDictName
    rw [if_pos (containsDot_of_endsWithDot name hend)]
    unfold deriveHostname
    rw [if_pos hend]
  · intro hdot hend
    unfold loadHostname fromDictName
    rw [if_pos hdot]
    unfold deriveHostname
    rw [if_neg (by simp [hend])]

/-- C7 witness: the three amended cases at concrete inputs: a dotless name
in the domain adomain.test, a name with a trailing dot, and a dotted name
without a trailing dot. -/
theorem load_hostname_spec_witness :
    (containsDot (str "master") = false → str "adomain.test" ≠ [] →
      endsWithDot (str "adomain.test") = false →
      loadHostname (str "master") (str "adomain.test") =
        str "master" ++ dotChar :: str "adomain.test") ∧
    (endsWithDot (str "master") = true →
      loadHostname (str "master") (str "adomain.test") =
        (str "master").dropLast) ∧
    (containsDot (str "master") = true → endsWithDot (str "master") = false →
      loadHostname (str "master") (str "adomain.test") =
        beforeFirstDot (str "master") ++ dotChar :: str "adomain.test") :=
  load_hostname_spec (str "master") (str "adomain.test")

deriving instance DecidableEq for Except

/-! ### C9: unrecognized keys -/

/-- C9: leftover unrecognized keys.  At domain level and at host level the
loader raises the extra-keys ValueError naming the offending keys; at
config level, however, the source computes the extra keys and constructs
`ValueError(...)` without raising it (`raise` is missing at
config.py line 90), so a config-level unrecognized key is silently
ignored and loading succeeds. -/
theorem extra_key_handling :
    configFromDict (fun _ => none)
        { domains := [], extraKeys := [str "bogus_key"] } =
      .ok { test_dir := str "/root/multihost_tests",
            ssh_key_filename := some (str "~/.ssh/id_rsa"),
            ssh_password := none, ssh_username := str "root", ipv6 := false,
            windows_test_dir := str "/home/Administrator", domains := [] } ∧
    domainFromDict (fun _ => none)
        { name := str "d", extraKeys := [str "bogus_key"] } =
      .error (.extraKeys (str "d") [str "bogus_key"]) ∧
    hostFromDict (fun _ => none) (str "d")
        { name := str "h", ip := some (str "1"),
          extraKeys := [str "bogus_key"] } =
      .error (.extraKeys (str "h.d") [str "bogus_key"]) := by decide

/-! ### C8: the load, export, reload round trip -/

/-- The domain types of a loaded configuration. -/
def Config.typesOf (c : Config) : List Str := c.domains.map (fun d => d.type)

/-- The host roles of a loaded configuration, per domain. -/
def Config.rolesOf (c : Config) : List (List Str) :=
  c.domains.map (fun d => d.hosts.map (fun h => h.role))

/-- The host hostnames of a loaded configuration, per domain. -/
def Config.hostnamesOf (c : Config) : List (List Str) :=
  c.domains.map (fun d => d.hosts.map (fun h => h.hostname))

/-- Example host entry for the C8 counterexample. -/
def c8HostDict : HostDict := { name := str "m", ip := some (str "1") }

/-- Example domain entry, named with a trailing dot, for the C8
counterexample. -/
def c8DomDict : DomainDict := { name := str "test.", hosts := [c8HostDict] }

/-- Example configuration mapping for the C8 counterexample. -/
def c8Cd : ConfigDict := { domains := [c8DomDict] }

/-- C8 counterexample: with a domain named `test.` (trailing dot), the
first load derives hostname `m.test`, but reloading the exported mapping
derives `m.test.` — the round trip does not reproduce byte-identical
hostnames even though both loads succeed. -/
theorem roundtrip_counterexample :
    ((configFromDict (fun _ => none) c8Cd).toOption.map Config.hostnamesOf =
      some [[str "m.test"]]) ∧
    (((configFromDict (fun _ => none) c8Cd).toOption.bind
        (fun c => (configFromDict (fun _ => none) (configToDict c)).toOption)).map
        Config.hostnamesOf = some [[str "m.test."]]) ∧
    ¬ ([[str "m.test."]] = [[str "m.test"]]) := by decide

theorem char_toNat_ofNat {n : Nat} (h : n.isValidChar) :
    (Char.ofNat n).toNat = n := by
  unfold Char.ofNat
  rw [dif_pos h]
  rfl

theorem char_toLower_idem (c : Char) : c.toLower.toLower = c.toLower := by
  simp only [Char.toLower]
  by_cases h : c.toNat ≥ 65 ∧ c.toNat ≤ 90
  · rw [if_pos h]
    have hv : (c.toNat + 32).isValidChar := Or.inl (by omega)
    have ht : (Char.ofNat (c.toNat + 32)).toNat = c.toNat + 32 :=
      char_toNat_ofNat hv
    rw [ht, if_neg (by omega)]
  · rw [if_neg h, if_neg h]

theorem toLowerStr_idem (s : Str) : toLowerStr (toLowerStr s) = toLowerStr s := by
  unfold toLowerStr
  rw [List.map_map]
  apply List.map_congr_left
  intro c _
  exact char_toLower_idem c

theorem toLowerStr_master : toLowerStr (str "master") = str "master" := by decide

theorem containsDot_ne_nil (s : Str) (h : containsDot s = true) : s ≠ [] := by
  intro hnil
  subst hnil
  simp [containsDot] at h

theorem containsDot_append_dot (xs ys : Str) :
    containsDot (xs ++ dotChar :: ys) = true := by
  unfold containsDot
  exact List.any_eq_true.mpr
    ⟨dotChar, List.mem_append_right xs (List.mem_cons_self dotChar ys), by simp⟩

theorem fromDictName_ne_nil (name dn : Str) : ¬ fromDictName name dn = [] := by
  unfold fromDictName
  split
  · rename_i h
    exact containsDot_ne_nil name h
  · simp

/-- The exported hostname is a dotless prefix joined to the domain name;
reloading such a name reproduces it exactly. -/
theorem loadHostname_stable (X dn : Str) (hX : ∀ c ∈ X, ¬ c = dotChar)
    (hdn : dn ≠ []) (hdne : endsWithDot dn = false) :
    fromDictName (X ++ dotChar :: dn) dn = X ++ dotChar :: dn ∧
    deriveHostname (X ++ dotChar :: dn) dn = X ++ dotChar :: dn ∧
    beforeFirstDot (X ++ dotChar :: dn) = X := by
  have hbfd : beforeFirstDot (X ++ dotChar :: dn) = X := by
    unfold beforeFirstDot
    exact takeWhile_append_dot X dn hX
  refine ⟨?_, ?_, hbfd⟩
  · unfold fromDictName
    rw [if_pos (containsDot_append_dot X dn)]
  · unfold deriveHostname
    rw [if_neg (by simp [endsWithDot_append_dot X dn hdn hdne]), hbfd]

theorem mem_beforeFirstDot (s : Str) :
    ∀ c ∈ beforeFirstDot s, ¬ c = dotChar := by
  intro c hc
  have := List.mem_takeWhile_imp hc
  simpa using this

/-- A successful `hostIp` never returns a falsy address. -/
theorem hostIp_ok_ne_nil (resolve : Str → Option Str) (ipArg : Option Str)
    (ext ip : Str) (h : hostIp resolve ipArg ext = .ok ip) : ¬ ip = [] := by
  unfold hostIp at h
  split at h
  · rename_i ht
    injection h with h1
    subst h1
    rcases ipArg with _ | s
    · simp [truthy] at ht
    · simp only [truthy, decide_eq_true_eq] at ht
      simpa [Option.getD] using ht
  · split at h
    · split at h
      · rename_i hni
        injection h with h1
        subst h1
        exact hni
      · exact Except.noConfusion h
    · exact Except.noConfusion h

/-- A truthy explicit ip argument is returned as given. -/
theorem hostIp_some (resolve : Str → Option Str) (ext ip : Str)
    (h : ¬ ip = []) : hostIp resolve (some ip) ext = .ok ip := by
  unfold hostIp
  rw [if_pos (by simpa [truthy] using h)]
  rfl

/-- Inversion of a successful host load. -/
theorem hostFromDict_ok_inv (resolve : Str → Option Str) (dn : Str)
    (hd : HostDict) (h1 : Host) (hok : hostFromDict resolve dn hd = .ok h1) :
    hostTypeValid h1.host_type = true ∧
    h1.host_type = hd.host_type.getD (str "default") ∧
    h1.role = (match hd.role with
      | some r => toLowerStr r
      | none => str "master") ∧
    h1.shortname = beforeFirstDot (fromDictName hd.name dn) ∧
    h1.hostname = deriveHostname (fromDictName hd.name dn) dn ∧
    h1.external_hostname = (if truthy hd.external_hostname
      then hd.external_hostname.getD [] else fromDictName hd.name dn) ∧
    ¬ h1.ip = [] := by
  unfold hostFromDict at hok
  split at hok
  · exact Except.noConfusion hok
  · rename_i hht
    split at hok
    · exact Except.noConfusion hok
    · split at hok
      · exact Except.noConfusion hok
      · rename_i ip hip
        injection hok with h1eq
        subst h1eq
        refine ⟨not_not.mp hht, rfl, rfl, rfl, rfl, rfl, ?_⟩
        exact hostIp_ok_ne_nil resolve hd.ip _ ip hip

/-- Reloading an exported host entry reproduces the host exactly, provided
the domain name is nonempty without a trailing dot and the configured host
name had no trailing dot. -/
theorem host_reload (resolve : Str → Option Str) (dn : Str) (hd : HostDict)
    (h1 : Host) (hok : hostFromDict resolve dn hd = .ok h1)
    (hdn : dn ≠ []) (hdne : endsWithDot dn = false)
    (hname : endsWithDot hd.name = false) :
    hostFromDict resolve dn (hostToDict h1) = .ok h1 := by
  obtain ⟨hvalid, hht, hrole, hshort, hhost, hext, hipnn⟩ :=
    hostFromDict_ok_inv resolve dn hd h1 hok
  have hrole2 : toLowerStr h1.role = h1.role := by
    rcases hro : hd.role with _ | r
    · rw [hro] at hrole
      simp only at hrole
      rw [hrole]
      exact toLowerStr_master
    · rw [hro] at hrole
      simp only at hrole
      rw [hrole, toLowerStr_idem]
  have hXdot : ∀ c ∈ h1.shortname, ¬ c = dotChar := by
    rw [hshort]
    exact mem_beforeFirstDot _
  have hnends : endsWithDot (fromDictName hd.name dn) = false := by
    by_cases hcd : containsDot hd.name = true
    · unfold fromDictName
      rw [if_pos hcd]
      exact hname
    · unfold fromDictName
      rw [if_neg hcd]
      exact endsWithDot_append_dot hd.name dn hdn hdne
  have hhost2 : h1.hostname = h1.shortname ++ dotChar :: dn := by
    rw [hhost, hshort]
    unfold deriveHostname
    rw [if_neg (by simp [hnends])]
  obtain ⟨k1, k2, k3⟩ := loadHostname_stable h1.shortname dn hXdot hdn hdne
  have k1a : fromDictName h1.hostname dn = h1.hostname := by
    rw [hhost2]
    rw [k1, ← hhost2]
  have k2a : deriveHostname h1.hostname dn = h1.hostname := by
    rw [hhost2]
    rw [k2, ← hhost2]
  have k3a : beforeFirstDot h1.hostname = h1.shortname := by
    rw [hhost2, k3]
  have hextnn : ¬ h1.external_hostname = [] := by
    rw [hext]
    split
    · rename_i htr
      rcases hdext : hd.external_hostname with _ | s
      · rw [hdext] at htr
        simp [truthy] at htr
      · rw [hdext] at htr
        simp [truthy] at htr
        simpa using htr
    · exact fromDictName_ne_nil hd.name dn
  have hht2 : ((if ¬ h1.host_type = str "default" then some h1.host_type
      else none).getD (str "default")) = h1.host_type := by
    by_cases hdef : h1.host_type = str "default"
    · simp [hdef]
    · simp [hdef]
  unfold hostFromDict hostToDict
  rw [hht2, if_neg (by simp [hvalid]), if_neg (by simp)]
  rw [if_pos (show truthy (some h1.external_hostname) = true by
    simpa [truthy] using hextnn)]
  simp only [Option.getD_some]
  rw [hostIp_some resolve h1.external_hostname h1.ip hipnn]
  dsimp only
  rw [hrole2, k1a, k2a, k3a]

/-- Inversion of a successful `mapLoad`. -/
theorem mapLoad_ok_forall₂ {α β : Type} (f : α → Except LoadErr β) :
    ∀ (l : List α) (bs : List β), mapLoad f l = .ok bs →
      List.Forall₂ (fun a b => f a = .ok b) l bs := by
  intro l
  induction l with
  | nil =>
    intro bs h
    simp only [mapLoad] at h
    injection h with h1
    subst h1
    exact List.Forall₂.nil
  | cons a as ih =>
    intro bs h
    simp only [mapLoad] at h
    split at h
    · exact Except.noConfusion h
    · rename_i b hb
      split at h
      · exact Except.noConfusion h
      · rename_i bs2 hbs
        injection h with h1
        subst h1
        exact List.Forall₂.cons hb (ih bs2 hbs)

/-- Loading back an exported list succeeds elementwise. -/
theorem mapLoad_roundtrip {β γ : Type} (g : γ → β) (f : β → Except LoadErr γ)
    (l : List γ) (h : ∀ x ∈ l, f (g x) = .ok x) :
    mapLoad f (l.map g) = .ok l := by
  induction l with
  | nil => rfl
  | cons x xs ih =>
    simp only [List.map_cons, mapLoad]
    rw [h x (List.mem_cons_self x xs),
      ih (fun y hy => h y (List.mem_cons_of_mem x hy))]

theorem forall₂_mem_right {α β : Type} {R : α → β → Prop} :
    ∀ {l1 : List α} {l2 : List β}, List.Forall₂ R l1 l2 →
      ∀ b ∈ l2, ∃ a ∈ l1, R a b := by
  intro l1 l2 h
  induction h with
  | nil => intro b hb; simp at hb
  | cons hab htail ih =>
    intro b hb
    rcases List.mem_cons.mp hb with rfl | hb2
    · exact ⟨_, List.mem_cons_self _ _, hab⟩
    · obtain ⟨a, ha, hr⟩ := ih b hb2
      exact ⟨a, List.mem_cons_of_mem _ ha, hr⟩

/-- Inversion of a successful domain load. -/
theorem domainFromDict_ok_inv (resolve : Str → Option Str) (dd : DomainDict)
    (d1 : Domain) (hok : domainFromDict resolve dd = .ok d1) :
    mapLoad (hostFromDict resolve dd.name) dd.hosts = .ok d1.hosts ∧
    d1.name = dd.name ∧ d1.type = dd.dtype.getD (str "default") := by
  unfold domainFromDict at hok
  split at hok
  · exact Except.noConfusion hok
  · rename_i hs hhs
    split at hok
    · exact Except.noConfusion hok
    · injection hok with h1
      subst h1
      exact ⟨hhs, rfl, rfl⟩

/-- Reloading an exported domain reproduces it exactly, under the C8
side conditions on the configured names. -/
theorem domain_reload (resolve : Str → Option Str) (dd : DomainDict)
    (d1 : Domain) (hok : domainFromDict resolve dd = .ok d1)
    (hdn : dd.name ≠ []) (hdne : endsWithDot dd.name = false)
    (hhosts : ∀ hd ∈ dd.hosts, endsWithDot hd.name = false) :
    domainFromDict resolve (domainToDict d1) = .ok d1 := by
  obtain ⟨hmap, hname, htype⟩ := domainFromDict_ok_inv resolve dd d1 hok
  have hpairs := mapLoad_ok_forall₂ (hostFromDict resolve dd.name) dd.hosts
    d1.hosts hmap
  have hreload : ∀ h ∈ d1.hosts,
      hostFromDict resolve d1.name (hostToDict h) = .ok h := by
    intro h hmem
    obtain ⟨hd, hhd, hfh⟩ := forall₂_mem_right hpairs h hmem
    rw [hname]
    exact host_reload resolve dd.name hd h hfh hdn hdne (hhosts hd hhd)
  unfold domainFromDict domainToDict
  dsimp only
  rw [mapLoad_roundtrip hostToDict (hostFromDict resolve d1.name) d1.hosts hreload]
  simp

/-- A successful domain-list load determines `configFromDict` up to the
scalar settings; conversely the produced `Config` carries that list. -/
theorem configFromDict_domains (resolve : Str → Option Str) (cd : ConfigDict)
    (ds : List Domain)
    (h : mapLoad (domainFromDict resolve) cd.domains = .ok ds) :
    ∃ c, configFromDict resolve cd = .ok c ∧ c.domains = ds := by
  unfold configFromDict
  rw [h]
  exact ⟨_, rfl, rfl⟩

/-- Inversion of a successful config load. -/
theorem configFromDict_ok_inv (resolve : Str → Option Str) (cd : ConfigDict)
    (c1 : Config) (hok : configFromDict resolve cd = .ok c1) :
    mapLoad (domainFromDict resolve) cd.domains = .ok c1.domains := by
  unfold configFromDict at hok
  split at hok
  · exact Except.noConfusion hok
  · rename_i ds hds
    injection hok with h1
    subst h1
    exact hds

/-- C8 (amended): for every configuration mapping that loads successfully
and in which no domain name is empty or ends with a dot and no configured
host name ends with a dot, exporting the loaded Config with to_dict and
loading the export again succeeds and reproduces byte-identical domain
types, host roles, and host hostnames. -/
theorem load_export_load_roundtrip (resolve : Str → Option Str)
    (cd : ConfigDict) (c1 : Config)
    (hok : configFromDict resolve cd = .ok c1)
    (hdom : ∀ dd ∈ cd.domains, dd.name ≠ [] ∧ endsWithDot dd.name = false ∧
      ∀ hd ∈ dd.hosts, endsWithDot hd.name = false) :
    ∃ c2, configFromDict resolve (configToDict c1) = .ok c2 ∧
      c2.typesOf = c1.typesOf ∧ c2.rolesOf = c1.rolesOf ∧
      c2.hostnamesOf = c1.hostnamesOf := by
  have hmap := configFromDict_ok_inv resolve cd c1 hok
  have hpairs := mapLoad_ok_forall₂ (domainFromDict resolve) cd.domains
    c1.domains hmap
  have hreload : ∀ d ∈ c1.domains,
      domainFromDict resolve (domainToDict d) = .ok d := by
    intro d hmem
    obtain ⟨dd, hdd, hfd⟩ := forall₂_mem_right hpairs d hmem
    obtain ⟨h1, h2, h3⟩ := hdom dd hdd
    exact domain_reload resolve dd d hfd h1 h2 h3
  have hmap2 : mapLoad (domainFromDict resolve) ((configToDict c1).domains) =
      .ok c1.domains := by
    unfold configToDict
    dsimp only
    exact mapLoad_roundtrip domainToDict (domainFromDict resolve) c1.domains hreload
  obtain ⟨c2, hc2, hdoms⟩ :=
    configFromDict_domains resolve (configToDict c1) c1.domains hmap2
  refine ⟨c2, hc2, ?_, ?_, ?_⟩ <;>
    simp [Config.typesOf, Config.rolesOf, Config.hostnamesOf, hdoms]

/-- Example host entry for the C8 witness. -/
def c8wHostDict : HostDict := { name := str "m", ip := some (str "1") }

/-- Example domain entry for the C8 witness. -/
def c8wDomDict : DomainDict := { name := str "d.test", hosts := [c8wHostDict] }

/-- Example configuration mapping for the C8 witness. -/
def c8wCd : ConfigDict := { domains := [c8wDomDict] }

/-- The host produced by loading the C8 witness configuration. -/
def c8wHost : Host :=
  { role := str "master", hostname := str "m.d.test", shortname := str "m",
    external_hostname := str "m.d.test", ip := str "1",
    host_type := str "default" }

/-- The domain produced by loading the C8 witness configuration. -/
def c8wDom : Domain :=
  { type := str "default", name := str "d.test", hosts := [c8wHost] }

/-- The Config produced by loading the C8 witness configuration. -/
def c8wConfig : Config :=
  { test_dir := str "/root/multihost_tests",
    ssh_key_filename := some (str "~/.ssh/id_rsa"), ssh_password := none,
    ssh_username := str "root", ipv6 := false,
    windows_test_dir := str "/home/Administrator", domains := [c8wDom] }

/-- C8 witness: the amended round trip at a concrete well-formed
configuration. -/
theorem load_export_load_roundtrip_witness :
    ∃ c2 : Config,
      configFromDict (fun _ => none) (configToDict c8wConfig) = .ok c2 ∧
      c2.typesOf = c8wConfig.typesOf ∧ c2.rolesOf = c8wConfig.rolesOf ∧
      c2.hostnamesOf = c8wConfig.hostnamesOf :=
  load_export_load_roundtrip (fun _ => none) c8wCd c8wConfig
    (by decide) (by decide)
